import Mathlib

/-!
Verification development for the desktop backend's directory scanning and
classification engine (`src/packages/desktop/src-tauri/src/lib.rs`).

The Rust code is shallowly embedded as follows:
* a filename/path is a Lean `String`; Rust byte-wise string comparison is
  modelled by Lean's character-wise `String` order;
* file content (Rust `Vec<u8>` / the bytes of a Rust `String`) is a
  `List Nat` of byte values; a successful `read_to_string` returns the
  file's bytes (a Rust `String` is exactly its UTF-8 bytes);
* a directory tree is the inductive `FsNode`; flat file operations
  (`read_text_file`, `hash_file`) take an association list from path to
  byte content;
* `Result<T, String>` is `Except String T`;
* Rust's stable `sort_by` is modelled by `List.insertionSort` (a stable
  sort) over the same comparator.
-/

/-- Splits a character list at the LAST occurrence of `sep`:
returns `some (before, after)` where `after` holds no `sep`, or `none`
when `sep` does not occur. Used to model both Rust's
`filename.rsplit('.').next()` and `Path::extension`/`Path::file_name`. -/
def splitAtLast (sep : Char) : List Char → Option (List Char × List Char)
  | [] => none
  | c :: cs =>
    match splitAtLast sep cs with
    | some (pre, post) => some (c :: pre, post)
    | none => if c = sep then some ([], cs) else none

/-- Models Rust `name.starts_with('.')`: the first character is `'.'`. -/
def startsWithDot (s : String) : Bool :=
  match s.data with
  | [] => false
  | c :: _ => c = '.'

/-- ASCII lowercasing of one character: the action of Rust
`str::to_lowercase` on the ASCII range (the only case exercised here). -/
def lowerChar (c : Char) : Char :=
  if 'A' ≤ c ∧ c ≤ 'Z' then Char.ofNat (c.toNat + 32) else c

/-- Models Rust `str::to_lowercase`, restricted to its ASCII action. -/
def lowerStr (s : String) : String :=
  String.mk (s.data.map lowerChar)

/-- Lexicographic comparison of character lists by code point. UTF-8
preserves code-point order byte-wise, so this models Rust's byte-wise
`str::cmp` as a `≤` test. -/
def charListLe : List Char → List Char → Bool
  | x :: xs, y :: ys => if x = y then charListLe xs ys else decide (x < y)
  | xs, _ => xs.isEmpty

/-- String `≤` under the model's byte-order comparison. -/
def strLe (a b : String) : Prop :=
  charListLe a.data b.data = true

instance : DecidableRel strLe := fun a b => by
  unfold strLe
  infer_instance

/-- Models Rust `filename.rsplit('.').next().unwrap_or("")`: the substring
after the last `'.'`, or the whole string when no `'.'` occurs (Rust's
`rsplit` yields the entire string as its first item in that case). -/
def afterLastDot (name : String) : String :=
  match splitAtLast '.' name.data with
  | some (_, post) => String.mk post
  | none => name

/-- Models Rust `Path::extension()` applied to a file name: `none` when
there is no `'.'`, or when the only `'.'` begins the name (hidden file);
otherwise the part after the last `'.'`. -/
def rustExtension (name : String) : Option String :=
  match splitAtLast '.' name.data with
  | some (pre, post) => if pre.isEmpty then none else some (String.mk post)
  | none => none

/-- Models Rust `Path::file_name()` on the model's path strings: the part
after the last `'/'`, or the whole string when no `'/'` occurs. -/
def lastSegment (path : String) : String :=
  match splitAtLast '/' path.data with
  | some (_, post) => String.mk post
  | none => path

/-- The extension-to-MIME table from the `match ext.as_str()` in
`guess_mime` (lib.rs lines 382-405), including its catch-all arm. -/
def mimeOfExt (ext : String) : String :=
  match ext with
  | "md" => "text/markdown"
  | "txt" => "text/plain"
  | "json" => "application/json"
  | "yaml" => "text/yaml"
  | "yml" => "text/yaml"
  | "csv" => "text/csv"
  | "pdf" => "application/pdf"
  | "png" => "image/png"
  | "jpg" => "image/jpeg"
  | "jpeg" => "image/jpeg"
  | "gif" => "image/gif"
  | "svg" => "image/svg+xml"
  | "mp4" => "video/mp4"
  | "mp3" => "audio/mpeg"
  | "doc" => "application/msword"
  | "docx" => "application/msword"
  | "xls" => "application/vnd.ms-excel"
  | "xlsx" => "application/vnd.ms-excel"
  | "pptx" => "application/vnd.ms-powerpoint"
  | "html" => "text/html"
  | "js" => "text/javascript"
  | "ts" => "text/typescript"
  | "py" => "text/x-python"
  | "rs" => "text/x-rust"
  | "go" => "text/x-go"
  | _ => "application/octet-stream"

/-- Embedding of `guess_mime` (lib.rs lines 375-407): take the substring
after the last dot via `rsplit('.').next()` (the whole name when there is
no dot), lowercase it, and look it up in the table. -/
def guess_mime (filename : String) : String :=
  mimeOfExt (lowerStr (afterLastDot filename))

/-- A directory tree: the model of the on-disk filesystem that the
recursive scans traverse. -/
inductive FsNode where
  | file (name : String) (content : List Nat)
  | dir (name : String) (children : List FsNode)

/-- Name of a node (Rust `file_name()` of its path). -/
def FsNode.name : FsNode → String
  | .file n _ => n
  | .dir n _ => n

/-- Whether a node is a directory (Rust `file_type().is_dir()`). -/
def FsNode.isDir : FsNode → Bool
  | .file _ _ => false
  | .dir _ _ => true

/-- Embedding of the vault test in `scan_for_obsidian` (lib.rs lines
256-258): `dir.join(".obsidian")` exists and is a directory, i.e. the
node is a directory with a child directory named `.obsidian`. -/
def isVault : FsNode → Bool
  | .file _ _ => false
  | .dir _ cs => cs.any fun c => c.name == ".obsidian" && c.isDir

/-- Embedding of the deny-list test in `scan_for_obsidian` (lib.rs lines
264-274): name starts with `'.'` or is one of the fixed names. -/
def deniedName (name : String) : Bool :=
  startsWithDot name || name == "node_modules" || name == "Library" ||
    name == ".Trash" || name == "dist" || name == "target"

mutual

/-- Embedding of `scan_for_obsidian` (lib.rs lines 251-284). The result
carries, next to each reported path, the subtree rooted there (on a fixed
filesystem, resolving the reported path again yields exactly that
subtree, which `count_markdown_files` then traverses). The order of the
checks mirrors the source: depth guard, then vault-marker check, then
deny-list check, then recursion into child directories. A node that is a
file stands for a path where `fs::read_dir` fails, contributing
nothing. -/
def scan_for_obsidian : FsNode → String → Nat → Nat → List (String × FsNode)
  | t, path, depth, maxDepth =>
    if depth > maxDepth then []
    else if isVault t then [(path, t)]
    else if deniedName t.name then []
    else
      match t with
      | .file _ _ => []
      | .dir _ cs => scanChildren cs path depth maxDepth

/-- The `for entry in entries.flatten()` loop of `scan_for_obsidian`:
recurse into each child that is a directory, in order. -/
def scanChildren : List FsNode → String → Nat → Nat → List (String × FsNode)
  | [], _, _, _ => []
  | c :: cs, path, depth, maxDepth =>
    (if c.isDir then scan_for_obsidian c (path ++ "/" ++ c.name) (depth + 1) maxDepth
     else []) ++ scanChildren cs path depth maxDepth

end

/-- Embedding of `walkdir_scan` (lib.rs lines 238-249): start the
recursive scan at depth 0. -/
def walkdir_scan (root : FsNode) (rootPath : String) (maxDepth : Nat) :
    List (String × FsNode) :=
  scan_for_obsidian root rootPath 0 maxDepth

mutual

/-- Embedding of `count_markdown_files` (lib.rs lines 286-308): count the
files whose `Path::extension()` equals `"md"`, recursing into
subdirectories whose name does not start with `'.'`. A file node stands
for a path where `fs::read_dir` fails (count 0). -/
def count_markdown_files : FsNode → Nat
  | .file _ _ => 0
  | .dir _ cs => countChildren cs

/-- The entry loop of `count_markdown_files` (lib.rs lines 289-305): a
file with `Path::extension()` equal to `"md"` counts 1, a subdirectory
whose name does not start with `'.'` is counted recursively, everything
else contributes 0. -/
def countChildren : List FsNode → Nat
  | [] => 0
  | c :: cs =>
    (match c with
     | .file n _ => if rustExtension n = some "md" then 1 else 0
     | .dir n _ => if startsWithDot n = false then count_markdown_files c else 0) +
      countChildren cs

end

instance {ε α : Type _} [DecidableEq ε] [DecidableEq α] : DecidableEq (Except ε α) :=
  fun a b =>
    match a, b with
    | .error e, .error f => decidable_of_iff (e = f) (by simp)
    | .error _, .ok _ => isFalse (by simp)
    | .ok _, .error _ => isFalse (by simp)
    | .ok x, .ok y => decidable_of_iff (x = y) (by simp)

/-- One step of the UTF-8 validation automaton used to model Rust's
`String::from_utf8` check. The state is `none` after an invalid byte, or
`some (k, lo, hi)`: `k` continuation bytes are still expected and the
next byte must lie in `lo..=hi` when `k > 0`. A fresh lead byte loads
the standard table: ASCII, `0xC2..=0xDF` two-byte leads (rejecting the
`0xC0`/`0xC1` overlongs), three-byte leads with the `0xE0` overlong and
`0xED` surrogate restrictions on the first continuation byte, four-byte
leads with the `0xF0` overlong and `0xF4` upper-bound restrictions, and
everything else invalid. -/
def utf8Step : Option (Nat × Nat × Nat) → Nat → Option (Nat × Nat × Nat)
  | none, _ => none
  | some (0, _, _), b =>
    if b ≤ 0x7F then some (0, 0, 0)
    else if 0xC2 ≤ b && b ≤ 0xDF then some (1, 0x80, 0xBF)
    else if b == 0xE0 then some (2, 0xA0, 0xBF)
    else if (0xE1 ≤ b && b ≤ 0xEC) || b == 0xEE || b == 0xEF then some (2, 0x80, 0xBF)
    else if b == 0xED then some (2, 0x80, 0x9F)
    else if b == 0xF0 then some (3, 0x90, 0xBF)
    else if 0xF1 ≤ b && b ≤ 0xF3 then some (3, 0x80, 0xBF)
    else if b == 0xF4 then some (3, 0x80, 0x8F)
    else none
  | some (k + 1, lo, hi), b =>
    if lo ≤ b && b ≤ hi then some (k, 0x80, 0xBF) else none

/-- Models the UTF-8 validity check performed by Rust's
`String::from_utf8` (and hence by `fs::read_to_string`): run the
automaton over the bytes and require it to end outside a sequence. -/
def validUtf8 (bytes : List Nat) : Bool :=
  match bytes.foldl utf8Step (some (0, 0, 0)) with
  | some (0, _, _) => true
  | _ => false

/-- A flat filesystem for the single-file operations: an association list
from path to byte content. -/
def FlatFs : Type := List (String × List Nat)

/-- Embedding of `read_text_file` (lib.rs lines 148-161): existence
check, 10 MiB size cap with strict `>`, then `fs::read_to_string`, which
returns the bytes when they are valid UTF-8 (a Rust `String` is its
UTF-8 bytes) and the invalid-data error otherwise. -/
def read_text_file (fs : FlatFs) (path : String) : Except String (List Nat) :=
  match List.lookup path fs with
  | none => .error ("File not found: " ++ path)
  | some bytes =>
    if bytes.length > 10 * 1024 * 1024 then .error "File too large (>10MB)"
    else if validUtf8 bytes then .ok bytes
    else .error "stream did not contain valid UTF-8"

/-- Addition modulo 2^32. -/
def add32 (a b : Nat) : Nat := (a + b) % 4294967296

/-- Right rotation of a 32-bit word (input assumed < 2^32). -/
def rotr32 (n x : Nat) : Nat :=
  ((x >>> n) ||| (x <<< (32 - n))) % 4294967296

/-- SHA-256 Ch function; bitwise NOT is XOR with the 32-bit mask. -/
def ch32 (x y z : Nat) : Nat := (x &&& y) ^^^ ((x ^^^ 4294967295) &&& z)

/-- SHA-256 Maj function. -/
def maj32 (x y z : Nat) : Nat := (x &&& y) ^^^ (x &&& z) ^^^ (y &&& z)

/-- SHA-256 big sigma 0. -/
def bigS0 (x : Nat) : Nat := rotr32 2 x ^^^ rotr32 13 x ^^^ rotr32 22 x

/-- SHA-256 big sigma 1. -/
def bigS1 (x : Nat) : Nat := rotr32 6 x ^^^ rotr32 11 x ^^^ rotr32 25 x

/-- SHA-256 small sigma 0. -/
def smallS0 (x : Nat) : Nat := rotr32 7 x ^^^ rotr32 18 x ^^^ (x >>> 3)

/-- SHA-256 small sigma 1. -/
def smallS1 (x : Nat) : Nat := rotr32 17 x ^^^ rotr32 19 x ^^^ (x >>> 10)

/-- The 64 SHA-256 round constants. -/
def sha256K : List Nat :=
  [1116352408, 1899447441, 3049323471, 3921009573, 961987163,
   1508970993, 2453635748, 2870763221, 3624381080, 310598401,
   607225278, 1426881987, 1925078388, 2162078206, 2614888103,
   3248222580, 3835390401, 4022224774, 264347078, 604807628,
   770255983, 1249150122, 1555081692, 1996064986, 2554220882,
   2821834349, 2952996808, 3210313671, 3336571891, 3584528711,
   113926993, 338241895, 666307205, 773529912, 1294757372,
   1396182291, 1695183700, 1986661051, 2177026350, 2456956037,
   2730485921, 2820302411, 3259730800, 3345764771, 3516065817,
   3600352804, 4094571909, 275423344, 430227734, 506948616,
   659060556, 883997877, 958139571, 1322822218, 1537002063,
   1747873779, 1955562222, 2024104815, 2227730452, 2361852424,
   2428436474, 2756734187, 3204031479, 3329325298]

/-- The SHA-256 initial hash state. -/
def sha256H0 : List Nat :=
  [1779033703, 3144134277, 1013904242, 2773480762,
   1359893119, 2600822924, 528734635, 1541459225]

/-- Big-endian byte expansion of `n` into `k` bytes. -/
def beBytes : Nat → Nat → List Nat
  | 0, _ => []
  | k + 1, n => ((n >>> (8 * k)) % 256) :: beBytes k n

/-- SHA-256 message padding: append `0x80`, zero bytes up to 56 mod 64,
then the 64-bit big-endian bit length. -/
def sha256Pad (msg : List Nat) : List Nat :=
  let len := msg.length
  let zeros := (55 + 64 - len % 64) % 64
  msg ++ 0x80 :: (List.replicate zeros 0 ++ beBytes 8 (len * 8))

/-- Packs bytes into big-endian 32-bit words (4 bytes per word). -/
def bytesToWords : List Nat → List Nat
  | b0 :: b1 :: b2 :: b3 :: rest =>
    (((b0 % 256) <<< 24) ||| ((b1 % 256) <<< 16) ||| ((b2 % 256) <<< 8) |||
      (b3 % 256)) :: bytesToWords rest
  | _ => []

/-- Splits a word list into chunks of 16 (the 512-bit blocks). -/
def chunk16 : List Nat → List (List Nat)
  | [] => []
  | w :: rest => ((w :: rest).take 16) :: chunk16 ((w :: rest).drop 16)
termination_by ws => ws.length
decreasing_by
  simp [List.length_drop]
  omega

/-- Extends a 16-word block to the 64-word SHA-256 message schedule. -/
def extendWords (block : List Nat) : List Nat :=
  (List.range 48).foldl
    (fun acc _ =>
      let i := acc.length
      acc ++ [add32 (add32 (smallS1 (acc.getD (i - 2) 0)) (acc.getD (i - 7) 0))
        (add32 (smallS0 (acc.getD (i - 15) 0)) (acc.getD (i - 16) 0))])
    block

/-- One SHA-256 compression round on the 8-word working state. -/
def sha256Round (st : List Nat) (kw : Nat × Nat) : List Nat :=
  match st with
  | [a, b, c, d, e, f, g, h] =>
    let t1 := add32 (add32 (add32 h (bigS1 e)) (add32 (ch32 e f g) kw.1)) kw.2
    let t2 := add32 (bigS0 a) (maj32 a b c)
    [add32 t1 t2, a, b, c, add32 d t1, e, f, g]
  | other => other

/-- Processes one 512-bit block: run the 64 rounds from the current hash
state and add the result back into it. -/
def sha256Block (hs : List Nat) (block : List Nat) : List Nat :=
  let w := extendWords block
  let st := (List.zip sha256K w).foldl sha256Round hs
  List.zipWith add32 hs st

/-- SHA-256 of a byte list, as 32 digest bytes: the algorithm used by the
`sha2` crate's `Sha256` in `hash_file`. -/
def sha256 (msg : List Nat) : List Nat :=
  let blocks := chunk16 (bytesToWords (sha256Pad msg))
  (blocks.foldl sha256Block sha256H0).flatMap (beBytes 4)

/-- The lowercase hexadecimal digits. -/
def hexDigits : List Char :=
  "0123456789abcdef".data

/-- Models `hex::encode`: two lowercase hex digits per byte. -/
def hexEncode (bytes : List Nat) : String :=
  String.mk (bytes.flatMap fun b => [hexDigits.getD (b % 256 / 16) '0', hexDigits.getD (b % 16) '0'])

/-- Embedding of `hash_file` (lib.rs lines 165-173): read the file's
bytes (any read failure becomes an error string) and return the
hex-encoded SHA-256 digest of the content. -/
def hash_file (fs : FlatFs) (path : String) : Except String String :=
  match List.lookup path fs with
  | none => .error "No such file or directory (os error 2)"
  | some bytes => .ok (hexEncode (sha256 bytes))

/-- Metadata of a raw directory entry as returned by the OS
(`entry.metadata()` fields used by `list_directory`). -/
structure RawMeta where
  is_directory : Bool
  size_bytes : Nat
  modified_at : String
deriving DecidableEq

/-- A raw directory entry: its file name and its metadata, `none`
modelling a failed `entry.metadata()` call. -/
structure RawEntry where
  name : String
  meta : Option RawMeta
deriving DecidableEq

/-- The `FileEntry` struct (lib.rs lines 31-38). -/
structure FileEntry where
  path : String
  name : String
  is_directory : Bool
  size_bytes : Nat
  modified_at : String
  mime_type : String
deriving DecidableEq

/-- The loop body of `list_directory` (lib.rs lines 102-134): skip hidden
names and entries whose metadata cannot be read, otherwise build a
`FileEntry` with the MIME type from `guess_mime`. -/
def mkFileEntry (dirPath : String) (e : RawEntry) : Option FileEntry :=
  if startsWithDot e.name then none
  else
    match e.meta with
    | none => none
    | some m =>
      some { path := dirPath ++ "/" ++ e.name, name := e.name,
             is_directory := m.is_directory, size_bytes := m.size_bytes,
             modified_at := m.modified_at, mime_type := guess_mime e.name }

/-- The comparator of the `entries.sort_by` call (lib.rs lines 137-141),
as a relation: `b.is_directory.cmp(&a.is_directory)` puts directories
first, ties broken by lowercased name. `a` sorts no later than `b` when
`a` is a directory and `b` is not, or the flags agree and `a`'s
lowercased name is no greater. -/
def entryLe (a b : FileEntry) : Prop :=
  (a.is_directory = true ∧ b.is_directory = false) ∨
    (a.is_directory = b.is_directory ∧ strLe (lowerStr a.name) (lowerStr b.name))

instance : DecidableRel entryLe := fun a b => by
  unfold entryLe
  infer_instance

/-- Embedding of `list_directory` (lib.rs lines 90-144). Its interaction
with the OS is abstracted into explicit inputs: whether the path exists,
whether it is a directory, and the raw entry sequence produced by
`fs::read_dir` (`none` modelling a failed `read_dir`). The surviving
entries are sorted by the stable-sort comparator. -/
def list_directory (path : String) (pathExists pathIsDir : Bool)
    (rawEntries : Option (List RawEntry)) : Except String (List FileEntry) :=
  if pathExists = false then .error ("Directory not found: " ++ path)
  else if pathIsDir = false then .error ("Not a directory: " ++ path)
  else
    match rawEntries with
    | none => .error "read_dir failed"
    | some es => .ok (List.insertionSort entryLe (es.filterMap (mkFileEntry path)))

/-- The `ObsidianVault` struct (lib.rs lines 41-45). -/
structure ObsidianVault where
  name : String
  path : String
  note_count : Nat
deriving DecidableEq

/-- Models `Vec::dedup_by` with a `same_bucket` predicate: drop each
element equal (under `eq`) to the last retained one. -/
def dedupBy (eq : α → α → Bool) : List α → List α
  | [] => []
  | [a] => [a]
  | a :: b :: rest =>
    if eq b a then dedupBy eq (a :: rest) else a :: dedupBy eq (b :: rest)

/-- The sort comparator on vaults (`a.path.cmp(&b.path)`), as a
relation. -/
def vaultLe (a b : ObsidianVault) : Prop := strLe a.path b.path

instance : DecidableRel vaultLe := fun a b => by
  unfold vaultLe
  infer_instance

/-- Embedding of `discover_obsidian_vaults` (lib.rs lines 193-235). The
filesystem is a partial map from root path to its tree (`none` meaning
the path does not exist, which is skipped). For each existing root the
depth-4 scan runs, each reported vault path yields an `ObsidianVault`
whose name is the final path segment and whose note count comes from
`count_markdown_files`; the aggregate is sorted by path and consecutive
duplicates are collapsed. -/
def discover_obsidian_vaults (fsAt : String → Option FsNode) (home : String) :
    List ObsidianVault :=
  let searchRoots := [home ++ "/Documents", home ++ "/Desktop", home ++ "/Obsidian", home]
  let vaults := searchRoots.flatMap fun root =>
    match fsAt root with
    | none => []
    | some t =>
      (walkdir_scan t root 4).map fun pn =>
        { name := lastSegment pn.1, path := pn.1,
          note_count := count_markdown_files pn.2 }
  dedupBy (fun a b => a.path == b.path) (List.insertionSort vaultLe vaults)

/-- Totality of the model's string comparison. -/
theorem charListLe_total : ∀ as bs : List Char,
    charListLe as bs = true ∨ charListLe bs as = true
  | [], _ => Or.inl rfl
  | _ :: _, [] => Or.inr rfl
  | a :: as, b :: bs => by
    by_cases h : a = b
    · subst h
      simpa [charListLe] using charListLe_total as bs
    · rcases lt_or_gt_of_ne h with hlt | hgt
      · exact Or.inl (by simp [charListLe, h, hlt])
      · exact Or.inr (by simp [charListLe, Ne.symm h, hgt])

/-- Transitivity of the model's string comparison. -/
theorem charListLe_trans : ∀ as bs cs : List Char,
    charListLe as bs = true → charListLe bs cs = true → charListLe as cs = true
  | [], _, _, _, _ => rfl
  | _ :: _, [], _, h, _ => by simp [charListLe] at h
  | _ :: _, _ :: _, [], _, h => by simp [charListLe] at h
  | a :: as, b :: bs, c :: cs, h1, h2 => by
    by_cases hab : a = b <;> by_cases hbc : b = c
    · subst hab; subst hbc
      simp only [charListLe, if_pos rfl] at h1 h2 ⊢
      exact charListLe_trans as bs cs h1 h2
    · subst hab
      simp only [charListLe, if_neg hbc, decide_eq_true_eq] at h2
      simp [charListLe, hbc, h2]
    · subst hbc
      simp only [charListLe, if_neg hab, decide_eq_true_eq] at h1
      simp [charListLe, hab, h1]
    · simp only [charListLe, if_neg hab, if_neg hbc, decide_eq_true_eq] at h1 h2
      have hac : a < c := lt_trans h1 h2
      simp [charListLe, ne_of_lt hac, hac]

/-- Antisymmetry of the model's string comparison. -/
theorem charListLe_antisymm : ∀ as bs : List Char,
    charListLe as bs = true → charListLe bs as = true → as = bs
  | [], [], _, _ => rfl
  | [], _ :: _, _, h => by simp [charListLe] at h
  | _ :: _, [], h, _ => by simp [charListLe] at h
  | a :: as, b :: bs, h1, h2 => by
    by_cases hab : a = b
    · subst hab
      simp only [charListLe, if_pos rfl] at h1 h2
      rw [charListLe_antisymm as bs h1 h2]
    · exfalso
      simp only [charListLe, if_neg hab, if_neg (Ne.symm hab),
        decide_eq_true_eq] at h1 h2
      exact absurd (lt_trans h1 h2) (lt_irrefl a)

/-- The sort comparator of `list_directory` is total. -/
theorem entryLe_total (a b : FileEntry) : entryLe a b ∨ entryLe b a := by
  unfold entryLe
  rcases ha : a.is_directory <;> rcases hb : b.is_directory
  · rcases charListLe_total (lowerStr a.name).data (lowerStr b.name).data with h | h
    · exact Or.inl (Or.inr ⟨rfl, h⟩)
    · exact Or.inr (Or.inr ⟨rfl, h⟩)
  · exact Or.inr (Or.inl ⟨rfl, rfl⟩)
  · exact Or.inl (Or.inl ⟨rfl, rfl⟩)
  · rcases charListLe_total (lowerStr a.name).data (lowerStr b.name).data with h | h
    · exact Or.inl (Or.inr ⟨rfl, h⟩)
    · exact Or.inr (Or.inr ⟨rfl, h⟩)

/-- The sort comparator of `list_directory` is transitive. -/
theorem entryLe_trans (a b c : FileEntry) (hab : entryLe a b) (hbc : entryLe b c) :
    entryLe a c := by
  unfold entryLe at *
  rcases hab with ⟨ha, hb⟩ | ⟨hab, hn₁⟩ <;> rcases hbc with ⟨hb', hc⟩ | ⟨hbc, hn₂⟩
  · exact Or.inl ⟨ha, hc⟩
  · exact Or.inl ⟨ha, hbc ▸ hb⟩
  · exact Or.inl ⟨hab ▸ hb', hc⟩
  · exact Or.inr ⟨hab.trans hbc, charListLe_trans _ _ _ hn₁ hn₂⟩

/-- A list without the separator splits to `none`. -/
theorem splitAtLast_eq_none (sep : Char) :
    ∀ l : List Char, l.contains sep = false → splitAtLast sep l = none := by
  intro l hl
  induction l with
  | nil => rfl
  | cons c cs ih =>
    simp only [List.contains_cons, Bool.or_eq_false_iff, beq_eq_false_iff_ne] at hl
    rw [splitAtLast, ih]
    · simp [Ne.symm hl.1]
    · simpa using hl.2

/-- The validation automaton stays in the start state on ASCII runs. -/
theorem utf8Fold_replicate (n : Nat) :
    (List.replicate n 97).foldl utf8Step (some (0, 0, 0)) = some (0, 0, 0) := by
  induction n with
  | zero => rfl
  | succ n ih => rw [List.replicate_succ, List.foldl_cons]; exact ih

/-- A run of the ASCII byte `97` is valid UTF-8. -/
theorem validUtf8_replicate (n : Nat) : validUtf8 (List.replicate n 97) = true := by
  unfold validUtf8
  rw [utf8Fold_replicate]

/-- The model's string comparison is reflexive. -/
theorem charListLe_refl : ∀ l : List Char, charListLe l l = true
  | [] => rfl
  | a :: l => by simp [charListLe, charListLe_refl l]

/-- Beyond the depth bound the scan returns nothing at all: the depth
guard precedes every other check. -/
theorem scan_stops_beyond_depth (t : FsNode) (path : String) (depth maxD : Nat)
    (h : depth > maxD) : scan_for_obsidian t path depth maxD = [] := by
  simp only [scan_for_obsidian.eq_def]
  rw [if_pos h]

/-- The child loop at the depth bound contributes nothing: every child
is visited at depth `maxD + 1` and stopped by the depth guard. -/
theorem scanChildren_at_max (cs : List FsNode) (path : String) (maxD : Nat) :
    scanChildren cs path maxD maxD = [] := by
  induction cs with
  | nil => rfl
  | cons c cs ih =>
    rw [scanChildren, scan_stops_beyond_depth c (path ++ "/" ++ c.name) (maxD + 1) maxD
      (by omega), ih]
    simp

/-- At depth exactly `maxD` a directory is still marker-checked and
reported if it is a vault, but nothing below it is visited. -/
theorem scan_at_max (t : FsNode) (path : String) (maxD : Nat) :
    scan_for_obsidian t path maxD maxD = if isVault t then [(path, t)] else [] := by
  simp only [scan_for_obsidian.eq_def]
  rw [if_neg (lt_irrefl maxD)]
  by_cases hv : isVault t
  · rw [if_pos hv, if_pos hv]
  · rw [if_neg hv, if_neg hv]
    by_cases hd : deniedName t.name
    · rw [if_pos hd]
    · rw [if_neg hd]
      cases t with
      | file n c => rfl
      | dir n cs => exact scanChildren_at_max cs path maxD

/-- `dedupBy` only ever keeps elements of its input. -/
theorem mem_dedupBy {α : Type _} (eq : α → α → Bool) :
    ∀ l : List α, ∀ x : α, x ∈ dedupBy eq l → x ∈ l
  | [], x, hx => by simp [dedupBy] at hx
  | [a], x, hx => by simpa [dedupBy] using hx
  | a :: b :: rest, x, hx => by
    rw [dedupBy] at hx
    by_cases he : eq b a = true
    · rw [if_pos he] at hx
      rcases List.mem_cons.1 (mem_dedupBy eq (a :: rest) x hx) with h | h
      · exact h ▸ List.mem_cons_self x (b :: rest)
      · exact List.mem_cons_of_mem a (List.mem_cons_of_mem b h)
    · rw [if_neg he] at hx
      rcases List.mem_cons.1 hx with h | h
      · exact h ▸ List.mem_cons_self x (b :: rest)
      · exact List.mem_cons_of_mem a (mem_dedupBy eq (b :: rest) x h)
termination_by l => l.length

/-- Collapsing consecutive path-duplicates of a path-sorted vault list
leaves pairwise distinct paths. -/
theorem dedupBy_path_pairwise :
    ∀ l : List ObsidianVault, List.Sorted vaultLe l →
      List.Pairwise (fun a b => a.path ≠ b.path)
        (dedupBy (fun a b => a.path == b.path) l)
  | [], _ => by simp [dedupBy]
  | [a], _ => by simp [dedupBy]
  | a :: b :: rest, hs => by
    rw [dedupBy]
    rcases List.sorted_cons.1 hs with ⟨hab, hrest⟩
    rcases List.sorted_cons.1 hrest with ⟨hbx, hrest2⟩
    by_cases he : (b.path == a.path) = true
    · rw [if_pos he]
      exact dedupBy_path_pairwise (a :: rest)
        (List.sorted_cons.2 ⟨fun x hx => hab x (List.mem_cons_of_mem b hx), hrest2⟩)
    · rw [if_neg he]
      refine List.Pairwise.cons ?_ (dedupBy_path_pairwise (b :: rest) hrest)
      intro x hx hax
      have hxmem := mem_dedupBy _ (b :: rest) x hx
      have hxb : vaultLe b x := by
        rcases List.mem_cons.1 hxmem with h | h
        · exact h ▸ charListLe_refl b.path.data
        · exact hbx x h
      have hba : vaultLe b a := by
        unfold vaultLe strLe at hxb ⊢
        rw [hax]
        exact hxb
      have heq : a.path.data = b.path.data :=
        charListLe_antisymm _ _ (hab b (List.mem_cons_self b rest)) hba
      exact he (beq_iff_eq.2 (String.ext heq).symm)
termination_by l => l.length

/-- C1 (amended): for an existing file, `read_text_file` fails with the
`TooLarge` error exactly when the byte length strictly exceeds
10*1024*1024; in particular a file of exactly 10*1024*1024 bytes is NOT
over the cap, and one of 10*1024*1024 + 1 bytes is. -/
theorem c1_read_cap_boundary (fs : FlatFs) (path : String) (bytes : List Nat)
    (h : List.lookup path fs = some bytes) :
    read_text_file fs path = Except.error "File too large (>10MB)" ↔
      bytes.length > 10 * 1024 * 1024 := by
  unfold read_text_file
  rw [h]
  dsimp only
  by_cases hlen : bytes.length > 10 * 1024 * 1024
  · simp [hlen]
  · rw [if_neg hlen]
    constructor
    · intro he
      by_cases hv : validUtf8 bytes = true
      · rw [if_pos hv] at he
        exact absurd he (by simp)
      · rw [if_neg hv] at he
        simp only [Except.error.injEq] at he
        exact absurd he (by decide)
    · intro hc
      exact absurd hc hlen

/-- Witness for C1's amended theorem at the boundary: a file of
10*1024*1024 + 1 bytes is over the cap. -/
theorem c1_read_cap_boundary_witness :
    (List.lookup "big" [("big", List.replicate 10485761 97)] =
      some (List.replicate 10485761 97)) ∧
    (read_text_file [("big", List.replicate 10485761 97)] "big" =
        Except.error "File too large (>10MB)" ↔
      (List.replicate 10485761 97).length > 10 * 1024 * 1024) :=
  ⟨rfl, c1_read_cap_boundary [("big", List.replicate 10485761 97)] "big"
    (List.replicate 10485761 97) rfl⟩

/-- Counterexample to C1 as stated: a readable ASCII file of exactly
10*1024*1024 bytes SUCCEEDS (the cap uses strict `>`), whereas the claim
pins exactly 10 MiB as over the cap. -/
theorem c1_counterexample :
    read_text_file [("big", List.replicate 10485760 97)] "big" =
      Except.ok (List.replicate 10485760 97) := by
  unfold read_text_file
  rw [show List.lookup "big" [("big", List.replicate 10485760 97)] =
    some (List.replicate 10485760 97) from rfl]
  dsimp only
  rw [if_neg (by rw [List.length_replicate]; omega)]
  rw [if_pos (validUtf8_replicate 10485760)]

/-- Counterexample to C3 as stated: the filename `md` holds no dot, yet
`guess_mime` returns the markdown label, not the generic one — Rust's
`rsplit('.').next()` yields the whole name when no dot occurs. -/
theorem c3_counterexample :
    guess_mime "md" = "text/markdown" ∧
      guess_mime "md" ≠ "application/octet-stream" :=
  ⟨by decide, by decide⟩

/-- C3 (amended): `classify` is total; a filename without any `'.'` is
classified as though the entire lowercased name were the extension (so
`"md"` maps to the markdown label), and the empty name maps to the
generic binary/unknown label. -/
theorem c3_no_dot_whole_name (name : String) (h : name.data.contains '.' = false) :
    guess_mime name = mimeOfExt (lowerStr name) ∧
      guess_mime "" = "application/octet-stream" := by
  refine ⟨?_, by decide⟩
  unfold guess_mime afterLastDot
  rw [splitAtLast_eq_none '.' name.data h]

/-- Witness for C3's amended theorem at the name `md`. -/
theorem c3_no_dot_whole_name_witness :
    ("md".data.contains '.' = false) ∧
      (guess_mime "md" = mimeOfExt (lowerStr "md") ∧
        guess_mime "" = "application/octet-stream") :=
  ⟨by decide, c3_no_dot_whole_name "md" (by decide)⟩

/-- C4: on the tree `root/{.obsidian/, note1.md, sub/note2.md,
sub/.trash/note3.md}`, the depth-4 vault scan reports exactly `root`,
and the markdown count is 2 (`note3.md` under hidden `.trash` is
excluded). -/
theorem c4_scenario :
    (walkdir_scan
        (.dir "root"
          [.dir ".obsidian" [], .file "note1.md" [],
           .dir "sub" [.file "note2.md" [], .dir ".trash" [.file "note3.md" []]]])
        "root" 4).map Prod.fst = ["root"] ∧
      count_markdown_files
        (.dir "root"
          [.dir ".obsidian" [], .file "note1.md" [],
           .dir "sub" [.file "note2.md" [], .dir ".trash" [.file "note3.md" []]]]) = 2 :=
  ⟨by decide, by decide⟩

/-- C9: `count_markdown_files` matches the extension case-sensitively —
a single file is counted exactly when its `Path::extension()` is the
lowercase `"md"`; `NOTE.MD` is not counted, while the Path Classifier
lowercases and does label `NOTE.MD` as markdown. -/
theorem c9_count_case_sensitive (name : String) (content : List Nat) :
    count_markdown_files (.dir "v" [.file name content]) =
        (if rustExtension name = some "md" then 1 else 0) ∧
      count_markdown_files (.dir "v" [.file "NOTE.MD" []]) = 0 ∧
      guess_mime "NOTE.MD" = "text/markdown" := by
  refine ⟨?_, by decide, by decide⟩
  simp [count_markdown_files, countChildren]

/-- Counterexample to C2 as stated: the deny-listed directory `dist`
directly contains the `.obsidian` marker and IS reported as a vault —
the marker check precedes the deny-list check in `scan_for_obsidian`, so
a deny-listed name does contribute. -/
theorem c2_counterexample :
    (scan_for_obsidian (.dir "root" [.dir "dist" [.dir ".obsidian" []]]) "root" 0 4).map
      Prod.fst = ["root/dist"] := by decide

/-- C2 (amended): at every level within the depth bound — the root
invocation included — the vault-marker check runs BEFORE the deny-list
check: a directory with a deny-listed name is still marker-checked and
is reported when it directly contains the marker; only when it is not a
vault does the deny list stop traversal, after which it contributes
nothing and none of its children are visited. -/
theorem c2_deny_after_marker (t : FsNode) (path : String) (depth maxD : Nat)
    (hdepth : depth ≤ maxD) (hdenied : deniedName t.name = true) :
    scan_for_obsidian t path depth maxD = if isVault t then [(path, t)] else [] := by
  simp only [scan_for_obsidian.eq_def]
  rw [if_neg (by omega)]
  by_cases hv : isVault t
  · rw [if_pos hv, if_pos hv]
  · rw [if_neg hv, if_neg hv, if_pos hdenied]

/-- Witness for C2's amended theorem: a deny-listed vault at depth 1 is
reported. -/
theorem c2_deny_after_marker_witness :
    ((1 : Nat) ≤ 4) ∧
      (deniedName (FsNode.dir "dist" [FsNode.dir ".obsidian" []]).name = true) ∧
      (scan_for_obsidian (FsNode.dir "dist" [FsNode.dir ".obsidian" []]) "home/dist" 1 4 =
        if isVault (FsNode.dir "dist" [FsNode.dir ".obsidian" []]) then
          [("home/dist", FsNode.dir "dist" [FsNode.dir ".obsidian" []])]
        else []) :=
  ⟨by decide, by decide,
    c2_deny_after_marker (FsNode.dir "dist" [FsNode.dir ".obsidian" []]) "home/dist" 1 4
      (by decide) (by decide)⟩

/-- C5: depth starts at 0 at the root; any call past the bound returns
nothing before any marker check, a directory at exactly `max_depth` is
still marker-checked (and reported when a vault) with no descent below
it, and `find_vaults` with `max_depth = 0` inspects only the root. -/
theorem c5_depth_bound (t : FsNode) (path : String) (depth maxD : Nat)
    (h : depth > maxD) :
    scan_for_obsidian t path depth maxD = [] ∧
      scan_for_obsidian t path maxD maxD = (if isVault t then [(path, t)] else []) ∧
      walkdir_scan t path 0 = (if isVault t then [(path, t)] else []) :=
  ⟨scan_stops_beyond_depth t path depth maxD h,
   scan_at_max t path maxD,
   scan_at_max t path 0⟩

/-- Witness for C5 at depth 5 against bound 4. -/
theorem c5_depth_bound_witness :
    ((5 : Nat) > 4) ∧
      (scan_for_obsidian (FsNode.dir "a" [FsNode.dir ".obsidian" []]) "a" 5 4 = [] ∧
        scan_for_obsidian (FsNode.dir "a" [FsNode.dir ".obsidian" []]) "a" 4 4 =
          (if isVault (FsNode.dir "a" [FsNode.dir ".obsidian" []]) then
            [("a", FsNode.dir "a" [FsNode.dir ".obsidian" []])] else []) ∧
        walkdir_scan (FsNode.dir "a" [FsNode.dir ".obsidian" []]) "a" 0 =
          (if isVault (FsNode.dir "a" [FsNode.dir ".obsidian" []]) then
            [("a", FsNode.dir "a" [FsNode.dir ".obsidian" []])] else [])) :=
  ⟨by decide, c5_depth_bound (FsNode.dir "a" [FsNode.dir ".obsidian" []]) "a" 5 4 (by decide)⟩

/-- C6: a successful `list_directory` result is sorted — every directory
entry precedes every non-directory entry, and entries with equal
directory flags are in ascending case-insensitive name order — and the
function is deterministic on an unchanged directory. -/
theorem c6_list_sorted (path : String) (pex pdir : Bool)
    (raw : Option (List RawEntry)) (l : List FileEntry)
    (h : list_directory path pex pdir raw = Except.ok l) :
    List.Pairwise
        (fun (a b : FileEntry) => (b.is_directory = true → a.is_directory = true) ∧
          (a.is_directory = b.is_directory →
            strLe (lowerStr a.name) (lowerStr b.name))) l ∧
      list_directory path pex pdir raw = list_directory path pex pdir raw := by
  refine ⟨?_, rfl⟩
  unfold list_directory at h
  by_cases hex : pex = false
  · rw [if_pos hex] at h
    exact absurd h (by simp)
  · rw [if_neg hex] at h
    by_cases hdir : pdir = false
    · rw [if_pos hdir] at h
      exact absurd h (by simp)
    · rw [if_neg hdir] at h
      cases raw with
      | none => exact absurd h (by simp)
      | some es =>
        simp only [Except.ok.injEq] at h
        subst h
        haveI : IsTotal FileEntry entryLe := ⟨entryLe_total⟩
        haveI : IsTrans FileEntry entryLe := ⟨entryLe_trans⟩
        have hs : List.Sorted entryLe
            (List.insertionSort entryLe (es.filterMap (mkFileEntry path))) :=
          List.sorted_insertionSort entryLe _
        refine hs.imp ?_
        intro a b hab
        rcases hab with ⟨ha, hb⟩ | ⟨heq, hle⟩
        · refine ⟨fun _ => ha, fun hadir => ?_⟩
          rw [ha, hb] at hadir
          exact absurd hadir (by decide)
        · exact ⟨fun hbt => heq.trans hbt, fun _ => hle⟩

/-- Witness for C6 on a three-entry directory. -/
theorem c6_list_sorted_witness :
    (list_directory "d" true true
        (some [⟨"b.txt", some ⟨false, 0, ""⟩⟩, ⟨"A", some ⟨true, 0, ""⟩⟩,
               ⟨"a.TXT", some ⟨false, 0, ""⟩⟩]) =
      Except.ok
        [⟨"d/A", "A", true, 0, "", "application/octet-stream"⟩,
         ⟨"d/a.TXT", "a.TXT", false, 0, "", "text/plain"⟩,
         ⟨"d/b.txt", "b.txt", false, 0, "", "text/plain"⟩]) ∧
      List.Pairwise
        (fun (a b : FileEntry) => (b.is_directory = true → a.is_directory = true) ∧
          (a.is_directory = b.is_directory →
            strLe (lowerStr a.name) (lowerStr b.name)))
        [⟨"d/A", "A", true, 0, "", "application/octet-stream"⟩,
         ⟨"d/a.TXT", "a.TXT", false, 0, "", "text/plain"⟩,
         ⟨"d/b.txt", "b.txt", false, 0, "", "text/plain"⟩] :=
  ⟨by decide,
    (c6_list_sorted "d" true true
      (some [⟨"b.txt", some ⟨false, 0, ""⟩⟩, ⟨"A", some ⟨true, 0, ""⟩⟩,
             ⟨"a.TXT", some ⟨false, 0, ""⟩⟩])
      [⟨"d/A", "A", true, 0, "", "application/octet-stream"⟩,
       ⟨"d/a.TXT", "a.TXT", false, 0, "", "text/plain"⟩,
       ⟨"d/b.txt", "b.txt", false, 0, "", "text/plain"⟩] (by decide)).1⟩

/-- C7: a discovery result never holds two vaults with the same path,
whatever the filesystem and home directory — the aggregate is sorted by
path and consecutive duplicates are collapsed. -/
theorem c7_discover_unique_paths (fsAt : String → Option FsNode) (home : String) :
    List.Pairwise (fun a b => a.path ≠ b.path)
      (discover_obsidian_vaults fsAt home) := by
  unfold discover_obsidian_vaults
  haveI : IsTotal ObsidianVault vaultLe :=
    ⟨fun a b => charListLe_total a.path.data b.path.data⟩
  haveI : IsTrans ObsidianVault vaultLe :=
    ⟨fun _ _ _ hab hbc => charListLe_trans _ _ _ hab hbc⟩
  exact dedupBy_path_pairwise _ (List.sorted_insertionSort vaultLe _)

/-- C8: the hash is a function of the byte content alone — two paths
holding identical bytes receive the identical hex digest string. -/
theorem c8_hash_content_deterministic (fs : FlatFs) (p1 p2 : String)
    (bytes : List Nat) (h1 : List.lookup p1 fs = some bytes)
    (h2 : List.lookup p2 fs = some bytes) :
    ∃ d, hash_file fs p1 = Except.ok d ∧ hash_file fs p2 = Except.ok d := by
  refine ⟨hexEncode (sha256 bytes), ?_, ?_⟩
  · unfold hash_file
    rw [h1]
  · unfold hash_file
    rw [h2]

/-- Witness for C8 on two paths with the same two bytes. -/
theorem c8_hash_content_deterministic_witness :
    (List.lookup "a" [("a", [104, 105]), ("b", [104, 105])] = some [104, 105]) ∧
      (List.lookup "b" [("a", [104, 105]), ("b", [104, 105])] = some [104, 105]) ∧
      ∃ d, hash_file [("a", [104, 105]), ("b", [104, 105])] "a" = Except.ok d ∧
        hash_file [("a", [104, 105]), ("b", [104, 105])] "b" = Except.ok d :=
  ⟨rfl, rfl,
    c8_hash_content_deterministic [("a", [104, 105]), ("b", [104, 105])] "a" "b"
      [104, 105] rfl rfl⟩

/-- C10: within the size cap, invalid UTF-8 bytes make `read_text_file`
fail, and a success returns exactly the file's (valid UTF-8) bytes — no
lossy decoding. -/
theorem c10_read_rejects_invalid_utf8 (fs : FlatFs) (path : String)
    (bytes : List Nat) (h : List.lookup path fs = some bytes)
    (hlen : bytes.length ≤ 10 * 1024 * 1024) :
    (validUtf8 bytes = false →
      read_text_file fs path = Except.error "stream did not contain valid UTF-8") ∧
      ∀ s, read_text_file fs path = Except.ok s → s = bytes ∧ validUtf8 bytes = true := by
  unfold read_text_file
  rw [h]
  dsimp only
  rw [if_neg (by omega)]
  constructor
  · intro hv
    rw [if_neg (by simp [hv])]
  · intro s hs
    by_cases hv : validUtf8 bytes = true
    · rw [if_pos hv] at hs
      simp only [Except.ok.injEq] at hs
      exact ⟨hs.symm, hv⟩
    · rw [if_neg hv] at hs
      exact absurd hs (by simp)

/-- Witness for C10 on a one-byte invalid-UTF-8 file. -/
theorem c10_read_rejects_invalid_utf8_witness :
    (List.lookup "f" [("f", [255])] = some [255]) ∧
      ([255] : List Nat).length ≤ 10 * 1024 * 1024 ∧
      ((validUtf8 [255] = false →
          read_text_file [("f", [255])] "f" =
            Except.error "stream did not contain valid UTF-8") ∧
        ∀ s, read_text_file [("f", [255])] "f" = Except.ok s →
          s = [255] ∧ validUtf8 [255] = true) :=
  ⟨rfl, by decide,
    c10_read_rejects_invalid_utf8 [("f", [255])] "f" [255] rfl (by decide)⟩
